import Mathlib

set_option maxRecDepth 8192

/-!
Verification development for the non-official Octra web client
(`src/lib/crypto.ts`, `src/hooks/use-wallet-data.ts`,
`src/app/components/dashboard/sidebar.tsx`).

Bytes are modelled as `Nat` values with explicit `< 256` bounds where they
matter.  External library primitives (tweetnacl's Ed25519 core, js-sha256,
node's HMAC-SHA512, nacl.secretbox, bip39's PBKDF2) are kept abstract in a
`Prims` record: the repository's own code is embedded concretely on top of
them, and every theorem quantifies over the primitives (adding the library's
documented length guarantees as hypotheses where they are needed).  The
byte-level codecs the repository's logic depends on (`tweetnacl-util`'s
Base64, `bs58`'s Base58) are implemented concretely, since the validation
and length behaviour of those codecs is what several claims are about.
-/

/-! ## Base64 (tweetnacl-util `encodeBase64` / `decodeBase64`,
    node `Buffer.from(s, 'base64')`) -/

/-- The standard Base64 alphabet, in value order. -/
def b64Alphabet : List Char :=
  ("ABCDEFGHIJKLMNOPQRSTUVWXYZabcdefghijklmnopqrstuvwxyz0123456789+/").toList

/-- Index of a character in a character list (first occurrence). -/
def alphaIndex : List Char → Char → Option Nat
  | [], _ => none
  | x :: xs, c => if x = c then some 0 else (alphaIndex xs c).map (· + 1)

/-- The Base64 character for a 6-bit value. -/
def b64Char (n : Nat) : Char := b64Alphabet.getD n 'A'

/-- The 6-bit value of a Base64 character, if any. -/
def b64Val (c : Char) : Option Nat := alphaIndex b64Alphabet c

/-- Whether a character belongs to the Base64 alphabet (padding excluded). -/
def isB64Char (c : Char) : Bool := (b64Val c).isSome

/-- Standard Base64 encoding of a byte list, with `=` padding.  This is the
character-level content of tweetnacl-util's `encodeBase64`. -/
def encodeB64Chars : List Nat → List Char
  | [] => []
  | [a] => [b64Char (a / 4), b64Char (a % 4 * 16), '=', '=']
  | [a, b] => [b64Char (a / 4), b64Char (a % 4 * 16 + b / 16), b64Char (b % 16 * 4), '=']
  | a :: b :: c :: rest =>
      b64Char (a / 4) :: b64Char (a % 4 * 16 + b / 16) ::
      b64Char (b % 16 * 4 + c / 64) :: b64Char (c % 64) :: encodeB64Chars rest

/-- tweetnacl-util's `encodeBase64`. -/
def encodeB64Str (bs : List Nat) : String := String.mk (encodeB64Chars bs)

/-- Base64 decoding of a character list from which padding and foreign
characters have already been removed; processes 4-character groups, with a
trailing group of 2 or 3 characters yielding 1 or 2 bytes.  This is the
decoding core shared by node's `Buffer.from(s, 'base64')` and (composed with
the validity check below) tweetnacl-util's `decodeBase64`. -/
def b64CoreDec : List Char → List Nat
  | c1 :: c2 :: c3 :: c4 :: rest =>
      let v1 := (b64Val c1).getD 0
      let v2 := (b64Val c2).getD 0
      let v3 := (b64Val c3).getD 0
      let v4 := (b64Val c4).getD 0
      (v1 * 4 + v2 / 16) :: (v2 % 16 * 16 + v3 / 4) :: (v3 % 4 * 64 + v4) :: b64CoreDec rest
  | [c1, c2, c3] =>
      let v1 := (b64Val c1).getD 0
      let v2 := (b64Val c2).getD 0
      let v3 := (b64Val c3).getD 0
      [v1 * 4 + v2 / 16, v2 % 16 * 16 + v3 / 4]
  | [c1, c2] =>
      let v1 := (b64Val c1).getD 0
      let v2 := (b64Val c2).getD 0
      [v1 * 4 + v2 / 16]
  | _ => []

/-- tweetnacl-util's Base64 well-formedness grammar (the regex
`^([A-Za-z0-9+/]{4})*([A-Za-z0-9+/]{2}==|[A-Za-z0-9+/]{3}=)?$`). -/
def validB64Chars : List Char → Bool
  | [] => true
  | [c1, c2, '=', '='] => isB64Char c1 && isB64Char c2
  | [c1, c2, c3, '='] => isB64Char c1 && isB64Char c2 && isB64Char c3
  | c1 :: c2 :: c3 :: c4 :: rest =>
      isB64Char c1 && isB64Char c2 && isB64Char c3 && isB64Char c4 && validB64Chars rest
  | _ => false

/-- node's `Buffer.from(s, 'base64')`: a lenient decoder that ignores
characters outside the Base64 alphabet (including the `=` padding) and
decodes what remains.  On every string accepted by tweetnacl-util's
validation the result coincides with strict Base64 decoding. -/
def bufferFromBase64 (s : String) : List Nat :=
  b64CoreDec (s.toList.filter isB64Char)

/-- tweetnacl-util's `decodeBase64`: validates the padding grammar (throwing
`invalid encoding`, modelled as `none`) and then decodes. -/
def decodeB64 (s : String) : Option (List Nat) :=
  if validB64Chars s.toList then some (bufferFromBase64 s) else none

theorem bufferFromBase64_of_decodeB64 {s : String} {bs : List Nat}
    (h : decodeB64 s = some bs) : bufferFromBase64 s = bs := by
  unfold decodeB64 at h
  split at h
  · exact (Option.some_inj.mp h)
  · exact absurd h (by simp)

theorem b64Val_b64Char : ∀ n, n < 64 → b64Val (b64Char n) = some n := by decide

theorem isB64Char_b64Char : ∀ n, n < 64 → isB64Char (b64Char n) = true := by decide

theorem isB64Char_eq_false : isB64Char '=' = false := by decide

theorem b64Char_ne_pad : ∀ n, n < 64 → ¬ b64Char n = '=' := by decide

theorem String.toList_mk (l : List Char) : (String.mk l).toList = l := rfl

theorem b64_encode_valid_and_dec (bs : List Nat) (h : ∀ b ∈ bs, b < 256) :
    validB64Chars (encodeB64Chars bs) = true ∧
    b64CoreDec ((encodeB64Chars bs).filter isB64Char) = bs := by
  induction bs using encodeB64Chars.induct with
  | case1 => exact ⟨rfl, rfl⟩
  | case2 a =>
      have ha : a < 256 := h a (by simp)
      have h1 : a / 4 < 64 := by omega
      have h2 : a % 4 * 16 < 64 := by omega
      constructor
      · simp [encodeB64Chars, validB64Chars, isB64Char_b64Char _ h1, isB64Char_b64Char _ h2]
      · simp [encodeB64Chars, List.filter, isB64Char_b64Char _ h1, isB64Char_b64Char _ h2,
              isB64Char_eq_false, b64CoreDec, b64Val_b64Char _ h1, b64Val_b64Char _ h2]
        omega
  | case3 a b =>
      have ha : a < 256 := h a (by simp)
      have hb : b < 256 := h b (by simp)
      have h1 : a / 4 < 64 := by omega
      have h2 : a % 4 * 16 + b / 16 < 64 := by omega
      have h3 : b % 16 * 4 < 64 := by omega
      constructor
      · simp [encodeB64Chars, validB64Chars, isB64Char_b64Char _ h1, isB64Char_b64Char _ h2,
              isB64Char_b64Char _ h3, b64Char_ne_pad _ h3]
      · simp [encodeB64Chars, List.filter, isB64Char_b64Char _ h1, isB64Char_b64Char _ h2,
              isB64Char_b64Char _ h3, isB64Char_eq_false, b64CoreDec,
              b64Val_b64Char _ h1, b64Val_b64Char _ h2, b64Val_b64Char _ h3]
        omega
  | case4 a b c rest ih =>
      have ha : a < 256 := h a (by simp)
      have hb : b < 256 := h b (by simp)
      have hc : c < 256 := h c (by simp)
      have hrest : ∀ x ∈ rest, x < 256 := fun x hx => h x (by simp [hx])
      obtain ⟨ihv, ihd⟩ := ih hrest
      have h1 : a / 4 < 64 := by omega
      have h2 : a % 4 * 16 + b / 16 < 64 := by omega
      have h3 : b % 16 * 4 + c / 64 < 64 := by omega
      have h4 : c % 64 < 64 := by omega
      constructor
      · simp [encodeB64Chars, validB64Chars, isB64Char_b64Char _ h1, isB64Char_b64Char _ h2,
              isB64Char_b64Char _ h3, isB64Char_b64Char _ h4,
              b64Char_ne_pad _ h3, b64Char_ne_pad _ h4, ihv]
      · simp [encodeB64Chars, List.filter, isB64Char_b64Char _ h1, isB64Char_b64Char _ h2,
              isB64Char_b64Char _ h3, isB64Char_b64Char _ h4, b64CoreDec,
              b64Val_b64Char _ h1, b64Val_b64Char _ h2, b64Val_b64Char _ h3,
              b64Val_b64Char _ h4, ihd]
        omega

/-- Base64 round trip: strict decoding inverts encoding on byte lists. -/
theorem decodeB64_encodeB64 (bs : List Nat) (h : ∀ b ∈ bs, b < 256) :
    decodeB64 (encodeB64Str bs) = some bs := by
  obtain ⟨hv, hd⟩ := b64_encode_valid_and_dec bs h
  unfold decodeB64 bufferFromBase64 encodeB64Str
  rw [String.toList_mk, hv]
  simp [hd]

/-! ## Base58 (`bs58`, Bitcoin alphabet, base-x conversion) -/

/-- The Base58 (Bitcoin) alphabet used by `bs58`. -/
def b58Alphabet : List Char :=
  ("123456789ABCDEFGHJKLMNPQRSTUVWXYZabcdefghijkmnopqrstuvwxyz").toList

/-- The Base58 character for a digit. -/
def b58Char (d : Nat) : Char := b58Alphabet.getD d '1'

/-- The digit value of a Base58 character (`none` models base-x throwing
`Non-base58 character`). -/
def b58Val (c : Char) : Option Nat := alphaIndex b58Alphabet c

/-- Value of a big-endian digit list. -/
def natFromDigits (base : Nat) (ds : List Nat) : Nat :=
  ds.foldl (fun a d => a * base + d) 0

/-- Big-endian digits of `n` in the given base: empty for `0`, and never with
a leading zero digit.  This is the carry-loop arithmetic of base-x. -/
def natToDigits (base n : Nat) : List Nat :=
  if h : n = 0 ∨ base ≤ 1 then [] else natToDigits base (n / base) ++ [n % base]
termination_by n
decreasing_by
  push_neg at h
  exact Nat.div_lt_self (Nat.pos_of_ne_zero h.1) (by omega)

/-- Option-valued map over a list, failing when any element fails. -/
def mapMOpt (f : α → Option β) : List α → Option (List β)
  | [] => some []
  | x :: xs =>
    match f x, mapMOpt f xs with
    | some y, some ys => some (y :: ys)
    | _, _ => none

/-- `bs58.encode`: one `'1'` per leading zero byte, then the Base58 digits of
the big-endian value of the byte list. -/
def encode58 (bs : List Nat) : List Char :=
  List.replicate (bs.takeWhile (· == 0)).length '1' ++
    (natToDigits 58 (natFromDigits 256 bs)).map b58Char

/-- `bs58.decode`: leading `'1'` characters become leading zero bytes, the
remaining characters are Base58 digits of a big-endian value; any character
outside the alphabet fails. -/
def decode58 (cs : List Char) : Option (List Nat) :=
  match mapMOpt b58Val (cs.dropWhile (· == '1')) with
  | none => none
  | some ds =>
      some (List.replicate (cs.takeWhile (· == '1')).length 0 ++
            natToDigits 256 (natFromDigits 58 ds))

theorem natFromDigits_append (b : Nat) (ds : List Nat) (d : Nat) :
    natFromDigits b (ds ++ [d]) = natFromDigits b ds * b + d := by
  unfold natFromDigits
  rw [List.foldl_append]
  rfl

theorem natToDigits_eq_nil (b m : Nat) (hb : 2 ≤ b) :
    natToDigits b m = [] ↔ m = 0 := by
  constructor
  · intro h
    unfold natToDigits at h
    split at h
    · rename_i hc
      rcases hc with hc | hc
      · exact hc
      · omega
    · simp at h
  · intro h
    unfold natToDigits
    simp [h]

theorem natFromDigits_natToDigits (b : Nat) (hb : 2 ≤ b) :
    ∀ n, natFromDigits b (natToDigits b n) = n := by
  intro n
  induction n using Nat.strong_induction_on with
  | _ n ih =>
    unfold natToDigits
    split
    · rename_i hc
      rcases hc with hc | hc
      · simp [natFromDigits, hc]
      · omega
    · rename_i hc
      push_neg at hc
      have hlt : n / b < n := Nat.div_lt_self (Nat.pos_of_ne_zero hc.1) (by omega)
      rw [natFromDigits_append, ih _ hlt, Nat.mul_comm (n / b) b]
      have := Nat.div_add_mod n b
      omega

theorem natToDigits_lt (b : Nat) (hb : 2 ≤ b) :
    ∀ n, ∀ d ∈ natToDigits b n, d < b := by
  intro n
  induction n using Nat.strong_induction_on with
  | _ n ih =>
    intro d hd
    unfold natToDigits at hd
    split at hd
    · simp at hd
    · rename_i hc
      push_neg at hc
      have hlt : n / b < n := Nat.div_lt_self (Nat.pos_of_ne_zero hc.1) (by omega)
      rcases List.mem_append.mp hd with hmem | hmem
      · exact ih _ hlt d hmem
      · simp at hmem
        subst hmem
        exact Nat.mod_lt n (by omega)

theorem natToDigits_head (b : Nat) (hb : 2 ≤ b) :
    ∀ n, n ≠ 0 → ∃ d r, natToDigits b n = d :: r ∧ d ≠ 0 ∧ d < b := by
  intro n
  induction n using Nat.strong_induction_on with
  | _ n ih =>
    intro hn
    unfold natToDigits
    rw [dif_neg (by omega)]
    by_cases hq : n / b = 0
    · refine ⟨n % b, [], ?_, ?_, Nat.mod_lt n (by omega)⟩
      · rw [(natToDigits_eq_nil b _ hb).mpr hq]
        rfl
      · have hnb : n < b := by
          rcases Nat.lt_or_ge n b with h | h
          · exact h
          · exact absurd (Nat.div_eq_zero_iff (by omega) |>.mp hq) (by omega)
        rw [Nat.mod_eq_of_lt hnb]
        exact hn
    · have hlt : n / b < n := Nat.div_lt_self (Nat.pos_of_ne_zero hn) (by omega)
      obtain ⟨d, r, heq, hd0, hdb⟩ := ih _ hlt hq
      exact ⟨d, r ++ [n % b], by rw [heq]; rfl, hd0, hdb⟩

theorem natFromDigits_cons_pos (b : Nat) (hb : 2 ≤ b) (y : Nat) (r : List Nat)
    (hy : y ≠ 0) : 0 < natFromDigits b (y :: r) := by
  have step : ∀ (l : List Nat) (a : Nat), a ≤ l.foldl (fun x d => x * b + d) a := by
    intro l
    induction l with
    | nil => intro a; simp
    | cons d l ihl =>
        intro a
        calc a ≤ a * b + d := by nlinarith
        _ ≤ (l.foldl (fun x d => x * b + d) (a * b + d)) := ihl _
  have : y ≤ natFromDigits b (y :: r) := by
    unfold natFromDigits
    have h0 : (0 : Nat) * b + y = y := by omega
    simpa [List.foldl, h0] using step r y
  omega

theorem natToDigits_natFromDigits (b : Nat) (hb : 2 ≤ b) (bs : List Nat) :
    (∀ d r, bs = d :: r → d ≠ 0) → (∀ d ∈ bs, d < b) →
    natToDigits b (natFromDigits b bs) = bs := by
  induction bs using List.reverseRecOn with
  | nil =>
      intro _ _
      simp [natFromDigits, natToDigits]
  | append_singleton ys d ih =>
      intro hhd hlt
      rw [natFromDigits_append]
      have hdb : d < b := hlt d (by simp)
      cases ys with
      | nil =>
          have hd0 : d ≠ 0 := hhd d [] rfl
          simp only [natFromDigits, List.foldl]
          unfold natToDigits
          rw [dif_neg (by omega)]
          have hq : (0 * b + d) / b = 0 := by
            rw [Nat.div_eq_of_lt (by omega)]
          rw [hq, (natToDigits_eq_nil b 0 hb).mpr rfl]
          rw [Nat.mod_eq_of_lt (by omega)]
          simp
      | cons y r =>
          have hy : y ≠ 0 := hhd y (r ++ [d]) (by simp)
          have hpos : 0 < natFromDigits b (y :: r) := natFromDigits_cons_pos b hb y r hy
          set M := natFromDigits b (y :: r) with hM
          have hMb : b ≤ M * b := by
            calc b = 1 * b := (Nat.one_mul b).symm
            _ ≤ M * b := Nat.mul_le_mul_right b hpos
          unfold natToDigits
          rw [dif_neg (by omega)]
          have hdiv : (M * b + d) / b = M := by
            rw [Nat.mul_comm M b, Nat.mul_add_div (by omega), Nat.div_eq_of_lt hdb]
            omega
          have hmod : (M * b + d) % b = d := by
            rw [Nat.mul_add_mod', Nat.mod_eq_of_lt hdb]
          have hys_hd : ∀ d' r', y :: r = d' :: r' → d' ≠ 0 := by
            intro d' r' he
            injection he with h1 _
            rw [← h1]
            exact hy
          have hys_lt : ∀ x ∈ y :: r, x < b := by
            intro x hx
            apply hlt
            rcases List.mem_cons.mp hx with h | h
            · simp [h]
            · simp [List.mem_append, h]
          rw [hdiv, hmod, ih hys_hd hys_lt]

theorem b58Val_b58Char : ∀ d, d < 58 → b58Val (b58Char d) = some d := by decide

theorem b58Char_beq_one : ∀ d, d < 58 → d ≠ 0 → (b58Char d == '1') = false := by decide

theorem takeWhile_replicate_append (p : α → Bool) (x : α) (hp : p x = true)
    (z : Nat) (l : List α) :
    (List.replicate z x ++ l).takeWhile p = List.replicate z x ++ l.takeWhile p ∧
    (List.replicate z x ++ l).dropWhile p = l.dropWhile p := by
  induction z with
  | zero => simp
  | succ n ihn =>
      simp only [List.replicate_succ, List.cons_append, List.takeWhile_cons,
        List.dropWhile_cons, hp, if_true]
      exact ⟨by rw [ihn.1], by rw [ihn.2]⟩

theorem dropWhile_head_false (p : α → Bool) (l : List α) :
    ∀ x xs, l.dropWhile p = x :: xs → p x = false := by
  induction l with
  | nil => intro x xs h; simp [List.dropWhile] at h
  | cons y ys ihl =>
      intro x xs h
      rw [List.dropWhile_cons] at h
      by_cases hy : p y
      · rw [if_pos hy] at h
        exact ihl x xs h
      · rw [if_neg hy] at h
        injection h with h1 _
        rw [← h1]
        simpa using hy

theorem mapMOpt_map (f : α → Option β) (g : β → α) (l : List β)
    (h : ∀ x ∈ l, f (g x) = some x) : mapMOpt f (l.map g) = some l := by
  induction l with
  | nil => rfl
  | cons x xs ihl =>
      simp only [List.map_cons]
      unfold mapMOpt
      rw [h x (by simp), ihl (fun y hy => h y (by simp [hy]))]

theorem natFromDigits_replicate_zero (b z : Nat) (l : List Nat) :
    natFromDigits b (List.replicate z 0 ++ l) = natFromDigits b l := by
  induction z with
  | zero => rfl
  | succ n ihn =>
      simp only [List.replicate_succ, List.cons_append]
      unfold natFromDigits at *
      simpa using ihn

/-- Base58 round trip: `bs58.decode` inverts `bs58.encode` on byte lists. -/
theorem decode58_encode58 (bs : List Nat) (h : ∀ x ∈ bs, x < 256) :
    decode58 (encode58 bs) = some bs := by
  have hz : ∀ x ∈ bs.takeWhile (· == 0), x = 0 := by
    intro x hx
    have := List.mem_takeWhile_imp hx
    simpa using this
  have htw : bs.takeWhile (· == 0) = List.replicate (bs.takeWhile (· == 0)).length 0 :=
    List.eq_replicate_of_mem hz
  have hbs := List.takeWhile_append_dropWhile (p := (· == 0)) (l := bs)
  have hdroplt : ∀ x ∈ bs.dropWhile (· == 0), x < 256 := by
    intro x hx
    apply h
    rw [← hbs]
    exact List.mem_append.mpr (Or.inr hx)
  have hdrophd : ∀ d r, bs.dropWhile (· == 0) = d :: r → d ≠ 0 := by
    intro d r hdr
    have := dropWhile_head_false (· == 0) bs d r hdr
    simpa using this
  have hN : natFromDigits 256 bs = natFromDigits 256 (bs.dropWhile (· == 0)) := by
    conv_lhs => rw [← hbs]
    rw [htw, natFromDigits_replicate_zero]
  have hdslt : ∀ d ∈ natToDigits 58 (natFromDigits 256 bs), d < 58 :=
    natToDigits_lt 58 (by omega) _
  have hpayload :
      ((natToDigits 58 (natFromDigits 256 bs)).map b58Char).takeWhile (· == '1') = [] ∧
      ((natToDigits 58 (natFromDigits 256 bs)).map b58Char).dropWhile (· == '1') =
        (natToDigits 58 (natFromDigits 256 bs)).map b58Char := by
    by_cases hN0 : natFromDigits 256 bs = 0
    · rw [hN0]
      have : natToDigits 58 0 = [] := (natToDigits_eq_nil 58 0 (by omega)).mpr rfl
      rw [this]
      exact ⟨rfl, rfl⟩
    · obtain ⟨d, r, hdr, hd0, hdb⟩ := natToDigits_head 58 (by omega) _ hN0
      rw [hdr]
      simp only [List.map_cons, List.takeWhile_cons, List.dropWhile_cons,
        b58Char_beq_one d hdb hd0]
      exact ⟨rfl, rfl⟩
  have hsplit := takeWhile_replicate_append (· == '1') '1' (by decide)
    (bs.takeWhile (· == 0)).length ((natToDigits 58 (natFromDigits 256 bs)).map b58Char)
  unfold decode58 encode58
  rw [hsplit.2, hpayload.2, hsplit.1, hpayload.1]
  rw [mapMOpt_map b58Val b58Char _ (fun d hd => b58Val_b58Char d (hdslt d hd))]
  dsimp only
  rw [natFromDigits_natToDigits 58 (by omega)]
  rw [hN, natToDigits_natFromDigits 256 (by omega) _ hdrophd hdroplt]
  simp only [List.append_nil, List.length_append, List.length_replicate]
  rw [← htw, hbs]

/-! ## UTF-8 and abstract external primitives -/

/-- UTF-8 bytes of a string (`TextEncoder.encode`). -/
def utf8Bytes (s : String) : List Nat := s.toUTF8.toList.map (fun b => b.toNat)

/-- The external cryptographic libraries used by the client, kept abstract:
`sha256` is js-sha256, `hmacSha512` is node `createHmac("sha512", key)`,
`edPublicKey`/`edSign`/`edVerify` are tweetnacl's Ed25519 core applied to
a 32-byte seed, a message with a 64-byte secret key, and a message with a
64-byte signature and 32-byte public key respectively, `secretbox` is
nacl.secretbox (message, nonce, key), `mnemonicToSeed` and `validMnemonic`
are bip39.  Theorems quantify over this record, adding the libraries'
documented output-length guarantees as hypotheses where needed. -/
structure Prims where
  sha256 : List Nat → List Nat
  hmacSha512 : List Nat → List Nat → List Nat
  edPublicKey : List Nat → List Nat
  edSign : List Nat → List Nat → List Nat
  edVerify : List Nat → List Nat → List Nat → Bool
  secretbox : List Nat → List Nat → List Nat → Option (List Nat)
  mnemonicToSeed : String → List Nat
  validMnemonic : String → Bool

/-- A concrete instantiation of the primitive interface, used to evaluate
the embedded code at concrete inputs. -/
def trivPrims : Prims where
  sha256 := fun _ => List.replicate 32 0
  hmacSha512 := fun _ _ => List.replicate 64 0
  edPublicKey := fun _ => List.replicate 32 0
  edSign := fun _ _ => List.replicate 64 0
  edVerify := fun _ _ _ => true
  secretbox := fun _ _ _ => some []
  mnemonicToSeed := fun _ => List.replicate 64 0
  validMnemonic := fun _ => true

deriving instance DecidableEq for Except

/-- tweetnacl's `SignKeyPair`. -/
structure SignKeyPair where
  publicKey : List Nat
  secretKey : List Nat
deriving DecidableEq

/-- tweetnacl's `sign.keyPair.fromSeed`: requires a 32-byte seed (it throws
`bad seed size` otherwise), and the 64-byte expanded secret key is the seed
followed by the derived public key. -/
def fromSeed (p : Prims) (seed : List Nat) : Except String SignKeyPair :=
  if seed.length = 32 then
    Except.ok (SignKeyPair.mk (p.edPublicKey seed) (seed ++ p.edPublicKey seed))
  else Except.error ("bad seed size")

/-! ## JSON payload model (`JSON.stringify` with insertion-ordered fields) -/

/-- A JSON value as the payload builders produce them: a string, or a number
carried as its exact JSON rendering. -/
inductive JVal where
  | str : String → JVal
  | num : String → JVal
deriving DecidableEq

/-- Lowercase hexadecimal digit. -/
def hexDigitChar (n : Nat) : Char := ("0123456789abcdef").toList.getD n '0'

/-- `JSON.stringify` escaping of a single character. -/
def escapeChar (c : Char) : List Char :=
  if c = '"' then ['\\', '"']
  else if c = '\\' then ['\\', '\\']
  else if c = '\x08' then ['\\', 'b']
  else if c = '\t' then ['\\', 't']
  else if c = '\n' then ['\\', 'n']
  else if c = '\x0c' then ['\\', 'f']
  else if c = '\r' then ['\\', 'r']
  else if c.toNat < 32 then
    ['\\', 'u', '0', '0', hexDigitChar (c.toNat / 16), hexDigitChar (c.toNat % 16)]
  else [c]

/-- `JSON.stringify` quoting of a string. -/
def jsonQuote (s : String) : String :=
  String.mk ('"' :: (s.toList.flatMap escapeChar ++ ['"']))

/-- Rendering of a single JSON value. -/
def renderJVal : JVal → String
  | JVal.str s => jsonQuote s
  | JVal.num r => r

/-- `JSON.stringify(obj, null, 0)` of an insertion-ordered object. -/
def jsonStringifyObj (fields : List (String × JVal)) : String :=
  ("\x7b") ++
    String.intercalate (",") (fields.map (fun f => jsonQuote f.1 ++ (":") ++ renderJVal f.2)) ++
  ("\x7d")

/-! ## `src/lib/crypto.ts` -/

/-- `validatePrivateKey` (crypto.ts 33-43): Base64-decode, then require a
decoded length of exactly 32 or 64 bytes; any failure is rethrown with the
`Invalid private key` prefix. -/
def validatePrivateKey (privateKeyB64 : String) : Except String Bool :=
  match decodeB64 privateKeyB64 with
  | none => Except.error ("Invalid private key: invalid encoding")
  | some decodedKey =>
      if decodedKey.length ≠ 32 ∧ decodedKey.length ≠ 64 then
        Except.error (("Invalid private key: Invalid key length. Expected 32 or 64 bytes, got ")
          ++ toString decodedKey.length)
      else Except.ok true

/-- `getKeyPair` (crypto.ts 51-60): validate, decode, then tweetnacl
`fromSeed`; any failure is rethrown with the `Failed to generate key pair`
prefix. -/
def getKeyPair (p : Prims) (privateKeyB64 : String) : Except String SignKeyPair :=
  match validatePrivateKey privateKeyB64 with
  | Except.error e => Except.error (("Failed to generate key pair: ") ++ e)
  | Except.ok _ =>
      match decodeB64 privateKeyB64 with
      | none => Except.error ("Failed to generate key pair: invalid encoding")
      | some decodedKey =>
          match fromSeed p decodedKey with
          | Except.error e => Except.error (("Failed to generate key pair: ") ++ e)
          | Except.ok keyPair => Except.ok keyPair

/-- `derivePublicKey` (crypto.ts 68-76). -/
def derivePublicKey (p : Prims) (privateKeyB64 : String) : Except String String :=
  match getKeyPair p privateKeyB64 with
  | Except.error e => Except.error (("Failed to derive public key: ") ++ e)
  | Except.ok keyPair => Except.ok (encodeB64Str keyPair.publicKey)

/-- `deriveAddress` (crypto.ts 84-94): `oct` plus the Base58 encoding of
SHA256 of the public key. -/
def deriveAddress (p : Prims) (privateKeyB64 : String) : Except String String :=
  match getKeyPair p privateKeyB64 with
  | Except.error e => Except.error (("Failed to derive address: ") ++ e)
  | Except.ok keyPair =>
      Except.ok (("oct") ++ String.mk (encode58 (p.sha256 keyPair.publicKey)))

/-- `validateAddress` (crypto.ts 225-234): must start with the literal
`oct`, and the remainder must Base58-decode to exactly 32 bytes; every
failure (including a Base58 decoding error) yields `false`. -/
def validateAddress (address : String) : Bool :=
  if address.toList.take 3 = ['o', 'c', 't'] then
    match decode58 (address.toList.drop 3) with
    | some decoded => decoded.length == 32
    | none => false
  else false

/-- `MasterKey` (crypto.ts 7-10). -/
structure MasterKey where
  masterPrivateKey : List Nat
  masterChainCode : List Nat
deriving DecidableEq

/-- `deriveMasterKey` (crypto.ts 137-149): HMAC-SHA512 with key
`Octra seed`; first 32 bytes are the master private key, bytes 32-64 the
chain code. -/
def deriveMasterKey (p : Prims) (seed : List Nat) : MasterKey :=
  let mac := p.hmacSha512 (utf8Bytes ("Octra seed")) seed
  MasterKey.mk (mac.take 32) ((mac.drop 32).take 32)

/-- `derivePrivateKeyFromMnemonic` (crypto.ts 102-117): validate the
mnemonic, derive the BIP-39 seed and the master key, expand the Ed25519
keypair from the 32-byte master private key, and export the first 32 bytes
of the expanded secret key in Base64. -/
def derivePrivateKeyFromMnemonic (p : Prims) (mnemonic : String) : Except String String :=
  if p.validMnemonic mnemonic = false then
    Except.error ("Failed to derive private key: Invalid mnemonic phrase")
  else
    let seed := p.mnemonicToSeed mnemonic
    let mkey := deriveMasterKey p seed
    match fromSeed p mkey.masterPrivateKey with
    | Except.error e => Except.error (("Failed to derive private key: ") ++ e)
    | Except.ok keyPair => Except.ok (encodeB64Str (keyPair.secretKey.take 32))

/-- `signMessage` (crypto.ts 243-253). -/
def signMessage (p : Prims) (message privateKeyB64 : String) : Except String String :=
  match getKeyPair p privateKeyB64 with
  | Except.error e => Except.error (("Failed to sign message: ") ++ e)
  | Except.ok keyPair =>
      Except.ok (encodeB64Str (p.edSign (utf8Bytes message) keyPair.secretKey))

/-- `verifySignature` (crypto.ts 263-277): decode both Base64 arguments,
then tweetnacl `sign.detached.verify`, which itself throws `bad signature
size` and `bad public key size` on wrong decoded lengths; every throw is
rethrown with the `Failed to verify signature` prefix. -/
def verifySignature (p : Prims) (message signatureB64 publicKeyB64 : String) :
    Except String Bool :=
  match decodeB64 signatureB64 with
  | none => Except.error ("Failed to verify signature: invalid encoding")
  | some signature =>
      match decodeB64 publicKeyB64 with
      | none => Except.error ("Failed to verify signature: invalid encoding")
      | some publicKey =>
          if signature.length ≠ 64 then
            Except.error ("Failed to verify signature: bad signature size")
          else if publicKey.length ≠ 32 then
            Except.error ("Failed to verify signature: bad public key size")
          else Except.ok (p.edVerify (utf8Bytes message) signature publicKey)

/-! ## `src/hooks/use-wallet-data.ts` -/

/-- `deriveEncryptionKey` (use-wallet-data.ts 13-27): SHA256 of the fixed
salt `octra_encrypted_balance_v2` followed by the decoded private-key bytes
(`Buffer.from(privkeyB64, 'base64')`), truncated to nacl.secretbox's
32-byte key length. -/
def deriveEncryptionKey (p : Prims) (privkeyB64 : String) : List Nat :=
  let privkeyBytes := bufferFromBase64 privkeyB64
  let salt := utf8Bytes ("octra_encrypted_balance_v2")
  (p.sha256 (salt ++ privkeyBytes)).take 32

/-- `encryptClientBalance` (use-wallet-data.ts 30-49): secretbox-encrypt
the UTF-8 decimal rendering of the balance under the derived key with a
fresh 24-byte nonce (`nacl.randomBytes(nacl.secretbox.nonceLength)`, passed
here as the `nonce` argument), and return `v2|` followed by the Base64 of
nonce then ciphertext; a missing ciphertext is a hard error, rethrown as
`Failed to encrypt balance`. -/
def encryptClientBalance (p : Prims) (nonce : List Nat) (balance : Int)
    (privkeyB64 : String) : Except String String :=
  let key := deriveEncryptionKey p privkeyB64
  let plaintext := utf8Bytes (toString balance)
  match p.secretbox plaintext nonce key with
  | none => Except.error ("Failed to encrypt balance")
  | some ciphertext => Except.ok (("v2|") ++ encodeB64Str (nonce ++ ciphertext))

/-- The two balance-crypto operations of `encryptDecryptBalance`. -/
inductive CryptoAction where
  | encrypt : CryptoAction
  | decrypt : CryptoAction
deriving DecidableEq

/-- The `transaction` object of `sendTransaction` (use-wallet-data.ts
434-442), in insertion order: `from`, `to_`, `amount` (the decimal string
of the floored micro-unit amount), `nonce` (a JSON number), `ou` (`1` below
the 1000 threshold, `3` from it on), `timestamp` (a JSON number whose exact
float rendering is taken as the `tsRender` argument), and `message` last —
present only when a non-empty message was supplied, since
`message: message or undefined` makes `JSON.stringify` drop the key for an
empty or missing message. -/
def mkTransaction (fromAddr toAddr : String) (amount : ℚ) (nonce : Int)
    (tsRender : String) (message : Option String) : List (String × JVal) :=
  [(("from"), JVal.str fromAddr),
   (("to_"), JVal.str toAddr),
   (("amount"), JVal.str (toString (Int.floor (amount * 1000000)))),
   (("nonce"), JVal.num (toString nonce)),
   (("ou"), JVal.str (if amount < 1000 then ("1") else ("3"))),
   (("timestamp"), JVal.num tsRender)] ++
  (match message with
   | none => []
   | some m => if m = ("") then [] else [(("message"), JVal.str m)])

/-- The signing and payload-assembly stage of `sendTransaction`
(use-wallet-data.ts 433-462): derive the keypair, build the transaction,
delete the `message` key from the copy that is canonicalized
(`JSON.stringify(signableData, null, 0)`), Ed25519-sign those UTF-8 bytes,
attach `signature` and `public_key`, and for a private transfer append
`from_private_key` in cleartext to the transmitted payload. -/
def sendTxSignedPayload (p : Prims) (privateKey fromAddr toAddr : String) (amount : ℚ)
    (nonce : Int) (tsRender : String) (message : Option String) (isPrivate : Bool) :
    Except String (List (String × JVal)) :=
  match getKeyPair p privateKey with
  | Except.error e => Except.error e
  | Except.ok keyPair =>
      let transaction := mkTransaction fromAddr toAddr amount nonce tsRender message
      let signableData := transaction.filter (fun f => f.1 ≠ ("message"))
      let transactionString := jsonStringifyObj signableData
      let signature := p.edSign (utf8Bytes transactionString) keyPair.secretKey
      let signedTransaction := transaction ++
        [(("signature"), JVal.str (encodeB64Str signature)),
         (("public_key"), JVal.str (encodeB64Str keyPair.publicKey))]
      Except.ok (if isPrivate then
          signedTransaction ++ [(("from_private_key"), JVal.str privateKey)]
        else signedTransaction)

/-! ## Shared helper lemmas -/

/-- `validatePrivateKey` succeeds on a 32- or 64-byte decode. -/
theorem validatePrivateKey_ok (k : String) (bs : List Nat)
    (hk : decodeB64 k = some bs) (hl : bs.length = 32 ∨ bs.length = 64) :
    validatePrivateKey k = Except.ok true := by
  unfold validatePrivateKey
  rw [hk]
  dsimp only
  rw [if_neg (by omega)]

/-- `getKeyPair` on a key whose Base64 decodes to exactly 32 bytes returns
the tweetnacl keypair expanded from that seed. -/
theorem getKeyPair_ok (p : Prims) (k : String) (bs : List Nat)
    (hk : decodeB64 k = some bs) (h32 : bs.length = 32) :
    getKeyPair p k =
      Except.ok (SignKeyPair.mk (p.edPublicKey bs) (bs ++ p.edPublicKey bs)) := by
  unfold getKeyPair
  rw [validatePrivateKey_ok k bs hk (Or.inl h32), hk]
  dsimp only
  unfold fromSeed
  rw [if_pos h32]

/-! ## Claim theorems -/

/-- C2 counterexample: the Base64 encoding of 64 zero bytes passes
`validatePrivateKey`, yet `getKeyPair` on it throws — tweetnacl's
`sign.keyPair.fromSeed` accepts only 32-byte seeds — so a 64-byte decode
does not yield a keypair and `getKeyPair` can fail even though
`validatePrivateKey` succeeded. -/
theorem getKeyPair_64_byte_counterexample :
    validatePrivateKey (encodeB64Str (List.replicate 64 0)) = Except.ok true ∧
    getKeyPair trivPrims (encodeB64Str (List.replicate 64 0)) =
      Except.error ("Failed to generate key pair: bad seed size") := by
  exact ⟨by decide, by decide⟩

/-- C2 (amended): for every Base64 string, `validatePrivateKey` succeeds
exactly when the decoded length is 32 or 64 bytes (anything else raises the
key-length error), but `getKeyPair` succeeds exactly when the decoded
length is 32 bytes: a 64-byte decode passes validation and then fails in
tweetnacl's `fromSeed` with `bad seed size`. -/
theorem validatePrivateKey_getKeyPair_lengths (p : Prims) (s : String) (bs : List Nat)
    (h : decodeB64 s = some bs) :
    ((∃ b, validatePrivateKey s = Except.ok b) ↔ (bs.length = 32 ∨ bs.length = 64)) ∧
    ((∃ kp, getKeyPair p s = Except.ok kp) ↔ bs.length = 32) := by
  have hvalerr : ¬(bs.length = 32 ∨ bs.length = 64) →
      ∀ b, ¬ validatePrivateKey s = Except.ok b := by
    intro hl b
    unfold validatePrivateKey
    rw [h]
    dsimp only
    rw [if_pos (by omega)]
    simp
  constructor
  · constructor
    · rintro ⟨b, hb⟩
      by_contra hl
      exact hvalerr hl b hb
    · intro hl
      exact ⟨true, validatePrivateKey_ok s bs h hl⟩
  · constructor
    · rintro ⟨kp, hkp⟩
      by_contra h32
      by_cases hl : bs.length = 32 ∨ bs.length = 64
      · unfold getKeyPair at hkp
        rw [validatePrivateKey_ok s bs h hl, h] at hkp
        unfold fromSeed at hkp
        dsimp only at hkp
        rw [if_neg h32] at hkp
        simp at hkp
      · unfold getKeyPair at hkp
        rcases hx : validatePrivateKey s with e | b
        · rw [hx] at hkp
          simp at hkp
        · exact hvalerr hl b hx
    · intro h32
      exact ⟨SignKeyPair.mk (p.edPublicKey bs) (bs ++ p.edPublicKey bs),
        getKeyPair_ok p s bs h h32⟩

/-- C2 witness: the amended characterization evaluated at the Base64
encoding of 32 zero bytes. -/
theorem validatePrivateKey_getKeyPair_lengths_witness :
    ((∃ b, validatePrivateKey (encodeB64Str (List.replicate 32 0)) = Except.ok b) ↔
      ((List.replicate 32 (0 : Nat)).length = 32 ∨ (List.replicate 32 (0 : Nat)).length = 64)) ∧
    ((∃ kp, getKeyPair trivPrims (encodeB64Str (List.replicate 32 0)) = Except.ok kp) ↔
      (List.replicate 32 (0 : Nat)).length = 32) :=
  validatePrivateKey_getKeyPair_lengths trivPrims (encodeB64Str (List.replicate 32 0))
    (List.replicate 32 0) (by decide)

/-- C4: for a fixed plain-transfer field set, signing with a non-empty
`message` and signing with the message absent produce the same signature —
the `message` key is deleted from the canonicalized JSON before signing —
while the two transmitted payloads differ (one carries the `message` field,
the other does not). -/
theorem excludedFieldSigning (p : Prims) (privateKey fromAddr toAddr : String)
    (amount : ℚ) (nonce : Int) (tsRender : String) (m : String) (hm : m ≠ (""))
    (bs : List Nat) (hk : decodeB64 privateKey = some bs) (h32 : bs.length = 32) :
    ∃ pl1 pl2,
      sendTxSignedPayload p privateKey fromAddr toAddr amount nonce tsRender
        (some m) false = Except.ok pl1 ∧
      sendTxSignedPayload p privateKey fromAddr toAddr amount nonce tsRender
        none false = Except.ok pl2 ∧
      pl1.lookup ("signature") = pl2.lookup ("signature") ∧
      pl1 ≠ pl2 := by
  have hkp := getKeyPair_ok p privateKey bs hk h32
  have hmsg : mkTransaction fromAddr toAddr amount nonce tsRender (some m) =
      mkTransaction fromAddr toAddr amount nonce tsRender none ++
        [(("message"), JVal.str m)] := by
    unfold mkTransaction
    dsimp only
    rw [if_neg hm]
    simp
  have hfilter : (mkTransaction fromAddr toAddr amount nonce tsRender (some m)).filter
        (fun f => f.1 ≠ ("message")) =
      (mkTransaction fromAddr toAddr amount nonce tsRender none).filter
        (fun f => f.1 ≠ ("message")) := by
    rw [hmsg, List.filter_append]
    simp
  refine ⟨mkTransaction fromAddr toAddr amount nonce tsRender (some m) ++
      [(("signature"), JVal.str (encodeB64Str (p.edSign (utf8Bytes (jsonStringifyObj
          ((mkTransaction fromAddr toAddr amount nonce tsRender none).filter
            (fun f => f.1 ≠ ("message"))))) (bs ++ p.edPublicKey bs)))),
       (("public_key"), JVal.str (encodeB64Str (p.edPublicKey bs)))],
    mkTransaction fromAddr toAddr amount nonce tsRender none ++
      [(("signature"), JVal.str (encodeB64Str (p.edSign (utf8Bytes (jsonStringifyObj
          ((mkTransaction fromAddr toAddr amount nonce tsRender none).filter
            (fun f => f.1 ≠ ("message"))))) (bs ++ p.edPublicKey bs)))),
       (("public_key"), JVal.str (encodeB64Str (p.edPublicKey bs)))], ?_, ?_, ?_, ?_⟩
  · unfold sendTxSignedPayload
    rw [hkp]
    dsimp only
    rw [hfilter]
    rfl
  · unfold sendTxSignedPayload
    rw [hkp]
    rfl
  · rw [hmsg]
    rfl
  · intro heq
    have hlen := congrArg List.length heq
    rw [hmsg] at hlen
    simp [List.length_append] at hlen

/-- C4 witness: the excluded-field signing property evaluated at a concrete
transfer with message `hi` and a 32-zero-byte key. -/
theorem excludedFieldSigning_witness :
    ∃ pl1 pl2,
      sendTxSignedPayload trivPrims (encodeB64Str (List.replicate 32 0)) ("a") ("b")
        1 5 ("0") (some ("hi")) false = Except.ok pl1 ∧
      sendTxSignedPayload trivPrims (encodeB64Str (List.replicate 32 0)) ("a") ("b")
        1 5 ("0") none false = Except.ok pl2 ∧
      pl1.lookup ("signature") = pl2.lookup ("signature") ∧
      pl1 ≠ pl2 :=
  excludedFieldSigning trivPrims (encodeB64Str (List.replicate 32 0)) ("a") ("b")
    1 5 ("0") ("hi") (by decide) (List.replicate 32 0) (by decide) (by decide)

/-- C6 counterexample: with both Base64 arguments well-formed (`AA==`
decodes to the single byte 0), `verifySignature` still throws — tweetnacl's
detached verify rejects the 1-byte signature with `bad signature size` — so
malformed Base64 is not the only way it can throw. -/
theorem verifySignature_counterexample :
    decodeB64 ("AA==") = some [0] ∧
    verifySignature trivPrims ("") ("AA==") (encodeB64Str (List.replicate 32 0)) =
      Except.error ("Failed to verify signature: bad signature size") := by
  exact ⟨by decide, by decide⟩

/-- C6 (amended): `verifySignature` returns a boolean exactly when the
signature argument decodes to 64 bytes and the public key argument to 32
bytes; it throws the wrapped `invalid encoding` error on malformed Base64,
and (beyond the claim) also throws on well-formed Base64 of the wrong
decoded length. -/
theorem verifySignature_totality (p : Prims) (message sigB64 pkB64 : String) :
    ((∃ b, verifySignature p message sigB64 pkB64 = Except.ok b) ↔
      (∃ s k, decodeB64 sigB64 = some s ∧ decodeB64 pkB64 = some k ∧
        s.length = 64 ∧ k.length = 32)) ∧
    ((decodeB64 sigB64 = none ∨ decodeB64 pkB64 = none) →
      verifySignature p message sigB64 pkB64 =
        Except.error ("Failed to verify signature: invalid encoding")) := by
  unfold verifySignature
  rcases hs : decodeB64 sigB64 with _ | s
  · constructor
    · constructor
      · rintro ⟨b, hb⟩
        simp at hb
      · rintro ⟨s, k, hs2, _, _, _⟩
        simp at hs2
    · intro _
      rfl
  · rcases hp : decodeB64 pkB64 with _ | k
    · constructor
      · constructor
        · rintro ⟨b, hb⟩
          simp at hb
        · rintro ⟨s2, k2, _, hp2, _, _⟩
          simp at hp2
      · rintro (hc | hc)
        · exact absurd hc (by simp)
        · rfl
    · constructor
      · constructor
        · rintro ⟨b, hb⟩
          dsimp only at hb
          by_cases h64 : s.length ≠ 64
          · rw [if_pos h64] at hb
            simp at hb
          · rw [if_neg h64] at hb
            by_cases h32 : k.length ≠ 32
            · rw [if_pos h32] at hb
              simp at hb
            · exact ⟨s, k, rfl, rfl, by omega, by omega⟩
        · rintro ⟨s2, k2, hs2, hp2, h64, h32⟩
          simp only [Option.some_inj] at hs2 hp2
          subst hs2
          subst hp2
          dsimp only
          rw [if_neg (by omega), if_neg (by omega)]
          exact ⟨_, rfl⟩
      · rintro (hc | hc)
        · exact absurd hc (by simp)
        · exact absurd hc (by simp)

/-- C6 witness: the amended characterization applied at a 64-byte signature
and 32-byte public key, yielding a boolean result. -/
theorem verifySignature_totality_witness :
    ∃ b, verifySignature trivPrims ("m") (encodeB64Str (List.replicate 64 0))
      (encodeB64Str (List.replicate 32 0)) = Except.ok b :=
  (verifySignature_totality trivPrims ("m") (encodeB64Str (List.replicate 64 0))
      (encodeB64Str (List.replicate 32 0))).1.mpr
    ⟨List.replicate 64 0, List.replicate 32 0, by decide, by decide, by decide, by decide⟩

/-- C7: for every integer balance and valid Base64 private key, the
envelope built by `encryptClientBalance` with the fresh 24-byte nonce is
`v2|` followed by the Base64 of nonce-then-ciphertext, where the ciphertext
is the secretbox encryption of the UTF-8 decimal string of the balance
under the first 32 bytes of SHA256 of the fixed salt followed by the
decoded key bytes; and it fails with the encryption-failure error when the
secretbox primitive returns no ciphertext. -/
theorem encryptClientBalance_envelope (p : Prims) (nonce : List Nat) (balance : Int)
    (k : String) (bs : List Nat) (hk : decodeB64 k = some bs)
    (hn : nonce.length = 24) :
    (∀ ct, p.secretbox (utf8Bytes (toString balance)) nonce
        ((p.sha256 (utf8Bytes ("octra_encrypted_balance_v2") ++ bs)).take 32) = some ct →
      encryptClientBalance p nonce balance k =
        Except.ok (("v2|") ++ encodeB64Str (nonce ++ ct)) ∧ nonce.length = 24) ∧
    (p.secretbox (utf8Bytes (toString balance)) nonce
        ((p.sha256 (utf8Bytes ("octra_encrypted_balance_v2") ++ bs)).take 32) = none →
      encryptClientBalance p nonce balance k =
        Except.error ("Failed to encrypt balance")) := by
  unfold encryptClientBalance deriveEncryptionKey
  dsimp only
  rw [bufferFromBase64_of_decodeB64 hk]
  constructor
  · intro ct hct
    rw [hct]
    exact ⟨rfl, hn⟩
  · intro hct
    rw [hct]

/-- C7 witness: the envelope shape evaluated at balance 0, a 24-zero-byte
nonce and the trivial primitives (whose secretbox returns an empty
ciphertext). -/
theorem encryptClientBalance_envelope_witness :
    encryptClientBalance trivPrims (List.replicate 24 0) 0
        (encodeB64Str (List.replicate 32 0)) =
      Except.ok (("v2|") ++ encodeB64Str (List.replicate 24 0 ++ [])) ∧
    (List.replicate 24 (0 : Nat)).length = 24 :=
  (encryptClientBalance_envelope trivPrims (List.replicate 24 0) 0
      (encodeB64Str (List.replicate 32 0)) (List.replicate 32 0)
      (by decide) (by decide)).1 [] (by decide)

/-- C8: `validateAddress` is a total boolean predicate holding exactly when
the string starts with the literal `oct` and the remainder Base58-decodes
to exactly 32 bytes; and for every key whose Base64 decodes to 32 bytes,
`deriveAddress` is stable under re-derivation and its result always
validates. -/
theorem validateAddress_spec_deriveAddress_stable :
    (∀ s : String, validateAddress s = true ↔
      ∃ rest bs, s.toList = 'o' :: 'c' :: 't' :: rest ∧
        decode58 rest = some bs ∧ bs.length = 32) ∧
    (∀ (p : Prims) (k : String) (bs : List Nat), decodeB64 k = some bs →
      bs.length = 32 → (∀ x, (p.sha256 x).length = 32) →
      (∀ x b, b ∈ p.sha256 x → b < 256) →
      deriveAddress p k = deriveAddress p k ∧
      ∃ a, deriveAddress p k = Except.ok a ∧ validateAddress a = true) := by
  constructor
  · intro s
    unfold validateAddress
    constructor
    · intro h
      split at h
      · rename_i htake
        split at h
        · rename_i decoded hdec
          refine ⟨s.toList.drop 3, decoded, ?_, hdec, by simpa using h⟩
          conv_lhs => rw [← List.take_append_drop 3 s.toList]
          rw [htake]
          rfl
        · simp at h
      · simp at h
    · rintro ⟨rest, bs, hsl, hdec, hlen⟩
      rw [hsl]
      rw [if_pos (show List.take 3 ('o' :: 'c' :: 't' :: rest) = ['o', 'c', 't'] from rfl)]
      have hdrop : List.drop 3 ('o' :: 'c' :: 't' :: rest) = rest := rfl
      rw [hdrop, hdec]
      simp [hlen]
  · intro p k bs hk h32 hsl hsb
    have hkp := getKeyPair_ok p k bs hk h32
    refine ⟨rfl, ("oct") ++ String.mk (encode58 (p.sha256 (p.edPublicKey bs))), ?_, ?_⟩
    · unfold deriveAddress
      rw [hkp]
    · unfold validateAddress
      have htl : (("oct") ++ String.mk (encode58 (p.sha256 (p.edPublicKey bs)))).toList =
          'o' :: 'c' :: 't' :: encode58 (p.sha256 (p.edPublicKey bs)) := rfl
      rw [htl]
      rw [if_pos (show List.take 3 ('o' :: 'c' :: 't' ::
        encode58 (p.sha256 (p.edPublicKey bs))) = ['o', 'c', 't'] from rfl)]
      have hdrop : List.drop 3 ('o' :: 'c' :: 't' ::
          encode58 (p.sha256 (p.edPublicKey bs))) = encode58 (p.sha256 (p.edPublicKey bs)) := rfl
      rw [hdrop, decode58_encode58 _ (fun x hx => hsb _ x hx)]
      simp [hsl (p.edPublicKey bs)]

/-- C8 witness: the predicate characterization evaluated at the string
`oct` (which fails, its remainder being empty), and a valid derived address
for the 32-zero-byte key under the trivial primitives. -/
theorem validateAddress_spec_deriveAddress_stable_witness :
    (validateAddress ("oct") = true ↔
      ∃ rest bs, ("oct").toList = 'o' :: 'c' :: 't' :: rest ∧
        decode58 rest = some bs ∧ bs.length = 32) ∧
    ∃ a, deriveAddress trivPrims (encodeB64Str (List.replicate 32 0)) = Except.ok a ∧
      validateAddress a = true :=
  ⟨validateAddress_spec_deriveAddress_stable.1 ("oct"),
   (validateAddress_spec_deriveAddress_stable.2 trivPrims
      (encodeB64Str (List.replicate 32 0)) (List.replicate 32 0) (by decide) (by decide)
      (fun _ => rfl)
      (fun x b hb => by
        have := List.eq_of_mem_replicate hb
        omega)).2⟩

/-- C9: the fee-tier field `ou` of a plain-transfer payload is `1` exactly
when the amount is strictly below 1000 and `3` otherwise; in particular
amount 999.999999 selects `1` and amount 1000 selects `3`. -/
theorem feeTier_ou :
    (∀ (fromAddr toAddr : String) (amount : ℚ) (nonce : Int) (tsRender : String)
        (message : Option String),
      (mkTransaction fromAddr toAddr amount nonce tsRender message).lookup ("ou") =
        some (JVal.str (if amount < 1000 then ("1") else ("3")))) ∧
    (mkTransaction ("a") ("b") (999999999 / 1000000 : ℚ) 1 ("0") none).lookup ("ou") =
      some (JVal.str ("1")) ∧
    (mkTransaction ("a") ("b") 1000 1 ("0") none).lookup ("ou") =
      some (JVal.str ("3")) := by
  have huniv : ∀ (fromAddr toAddr : String) (amount : ℚ) (nonce : Int) (tsRender : String)
      (message : Option String),
      (mkTransaction fromAddr toAddr amount nonce tsRender message).lookup ("ou") =
        some (JVal.str (if amount < 1000 then ("1") else ("3"))) :=
    fun _ _ _ _ _ _ => rfl
  refine ⟨huniv, ?_, ?_⟩
  · rw [huniv, if_pos (by norm_num)]
  · rw [huniv, if_neg (by norm_num)]

/-- C10: for every accepted mnemonic, the exported Base64 private key
decodes to exactly the 32-byte master private key produced by
`deriveMasterKey` on the BIP-39 seed — the first 32 bytes of the expanded
Ed25519 secret key are the seed it was expanded from. -/
theorem derivePrivateKeyFromMnemonic_is_masterKey (p : Prims) (m : String)
    (hvm : p.validMnemonic m = true)
    (hlen : (p.hmacSha512 (utf8Bytes ("Octra seed")) (p.mnemonicToSeed m)).length = 64)
    (hbytes : ∀ b ∈ p.hmacSha512 (utf8Bytes ("Octra seed")) (p.mnemonicToSeed m), b < 256) :
    ∃ s, derivePrivateKeyFromMnemonic p m = Except.ok s ∧
      decodeB64 s = some (deriveMasterKey p (p.mnemonicToSeed m)).masterPrivateKey ∧
      (deriveMasterKey p (p.mnemonicToSeed m)).masterPrivateKey.length = 32 := by
  have h32 : (deriveMasterKey p (p.mnemonicToSeed m)).masterPrivateKey.length = 32 := by
    unfold deriveMasterKey
    simp [List.length_take, hlen]
  refine ⟨encodeB64Str (deriveMasterKey p (p.mnemonicToSeed m)).masterPrivateKey, ?_, ?_, h32⟩
  · unfold derivePrivateKeyFromMnemonic
    rw [hvm]
    dsimp only
    unfold fromSeed
    rw [if_pos h32]
    dsimp only
    rw [List.take_left' h32]
    simp
  · apply decodeB64_encodeB64
    intro b hb
    apply hbytes
    unfold deriveMasterKey at hb
    exact List.take_subset _ _ hb

/-- C10 witness: the master-key export property under the trivial
primitives (whose HMAC-SHA512 returns 64 zero bytes). -/
theorem derivePrivateKeyFromMnemonic_is_masterKey_witness :
    ∃ s, derivePrivateKeyFromMnemonic trivPrims ("m") = Except.ok s ∧
      decodeB64 s =
        some (deriveMasterKey trivPrims (trivPrims.mnemonicToSeed ("m"))).masterPrivateKey ∧
      (deriveMasterKey trivPrims (trivPrims.mnemonicToSeed ("m"))).masterPrivateKey.length = 32 :=
  derivePrivateKeyFromMnemonic_is_masterKey trivPrims ("m") (by decide) (by decide)
    (fun b hb => by
      have := List.eq_of_mem_replicate hb
      omega)

/-! ## `src/app/components/dashboard/sidebar.tsx` — the live balance-crypto
and private-transfer requests.  `useEncryptDecrypt` (use-wallet-data.ts) and
part_005's `encryptBalance`/`decryptBalance`/`createPrivateTransfer` are
never imported; the requests the client actually transmits are built by
`handleEncrypt`, `handleDecrypt` and `handlePrivateTransfer` here. -/

/-- sidebar.tsx `deriveEncryptionKey` (31-43): SHA256 of the fixed salt
followed by the UTF-8 bytes of the private-key string itself (unlike the
use-wallet-data variant, the Base64 string is not decoded here), truncated
to nacl.secretbox's 32-byte key length. -/
def sidebarDeriveEncryptionKey (p : Prims) (privkey : String) : List Nat :=
  (p.sha256 (utf8Bytes ("octra_encrypted_balance_v2") ++ utf8Bytes privkey)).take 32

/-- sidebar.tsx `encryptBalanceValue` (45-64): secretbox-encrypt the UTF-8
decimal string of the balance under the sidebar-derived key with a fresh
24-byte nonce (`nacl.randomBytes(nacl.secretbox.nonceLength)`, passed here
as the `nonceBytes` argument), returning `v2|` plus the Base64 of nonce
then ciphertext; a missing ciphertext is rethrown as a hard error. -/
def encryptBalanceValue (p : Prims) (nonceBytes : List Nat) (balance : Int)
    (privkey : String) : Except String String :=
  let key := sidebarDeriveEncryptionKey p privkey
  let plaintext := utf8Bytes (toString balance)
  match p.secretbox plaintext nonceBytes key with
  | none => Except.error ("Failed to encrypt balance")
  | some ciphertext => Except.ok (("v2|") ++ encodeB64Str (nonceBytes ++ ciphertext))

/-- The payload-construction stage shared by sidebar.tsx `handleEncrypt`
(198-237) and `handleDecrypt` (333-377): from the server-reported
`encrypted_balance_raw` and the requested amount, compute the post-op raw
balance (the decrypt side throws `Insufficient encrypted balance` first),
build the fresh envelope, derive the keypair, Ed25519-sign the
`JSON.stringify` of the message object with the fields `address`, `amount`
(raw micro-units, a JSON number here), `new_balance` (post-op raw balance)
and `timestamp` (`Date.now()` epoch millis, passed as the `ts` argument),
and transmit the payload `address`, `amount` (raw micro-units as a string),
`private_key`, `encrypted_data`, `signature`, `public_key`, `timestamp`. -/
def sidebarBalanceCryptoPayload (p : Prims) (nonceBytes : List Nat)
    (address privateKey publicKey : String) (currentEncryptedRaw : Int) (amt : ℚ)
    (ts : Int) (action : CryptoAction) : Except String (List (String × JVal)) :=
  let amountRaw : Int := Int.floor (amt * 1000000)
  match (match action with
         | CryptoAction.encrypt => Except.ok (currentEncryptedRaw + amountRaw)
         | CryptoAction.decrypt =>
             if currentEncryptedRaw < amountRaw then
               Except.error ("Insufficient encrypted balance")
             else Except.ok (currentEncryptedRaw - amountRaw)) with
  | Except.error e => Except.error e
  | Except.ok newEncryptedRaw =>
      match encryptBalanceValue p nonceBytes newEncryptedRaw privateKey with
      | Except.error e => Except.error e
      | Except.ok encryptedData =>
          match getKeyPair p privateKey with
          | Except.error e => Except.error e
          | Except.ok keyPair =>
              let message := jsonStringifyObj
                [(("address"), JVal.str address),
                 (("amount"), JVal.num (toString amountRaw)),
                 (("new_balance"), JVal.num (toString newEncryptedRaw)),
                 (("timestamp"), JVal.num (toString ts))]
              let signature := p.edSign (utf8Bytes message) keyPair.secretKey
              Except.ok [(("address"), JVal.str address),
                         (("amount"), JVal.str (toString amountRaw)),
                         (("private_key"), JVal.str privateKey),
                         (("encrypted_data"), JVal.str encryptedData),
                         (("signature"), JVal.str (encodeB64Str signature)),
                         (("public_key"), JVal.str publicKey),
                         (("timestamp"), JVal.num (toString ts))]

/-- The payload-construction stage of sidebar.tsx `handlePrivateTransfer`
(431-469): `amountRaw = Math.floor(amt * 1000000)`, `timestamp =
Math.floor(Date.now() / 1000)` (integer seconds, the `ts` argument),
`nonce = Date.now()` (a client-chosen large integer, the `nonce` argument);
Ed25519-sign the `JSON.stringify` of the message object with the fields
`from`, `to`, `amount` (a JSON number here), `timestamp`, `nonce`, and
transmit `from`, `to`, `amount` (as a string), `from_private_key`
(cleartext), `signature`, `public_key`, `timestamp`, `nonce` and an empty
`message`. -/
def sidebarPrivateTransferPayload (p : Prims)
    (fromAddr toAddr privateKey publicKey : String) (amt : ℚ) (ts nonce : Int) :
    Except String (List (String × JVal)) :=
  let amountRaw : Int := Int.floor (amt * 1000000)
  match getKeyPair p privateKey with
  | Except.error e => Except.error e
  | Except.ok keyPair =>
      let messageObj : List (String × JVal) :=
        [(("from"), JVal.str fromAddr),
         (("to"), JVal.str toAddr),
         (("amount"), JVal.num (toString amountRaw)),
         (("timestamp"), JVal.num (toString ts)),
         (("nonce"), JVal.num (toString nonce))]
      let signature := p.edSign (utf8Bytes (jsonStringifyObj messageObj)) keyPair.secretKey
      Except.ok [(("from"), JVal.str fromAddr),
                 (("to"), JVal.str toAddr),
                 (("amount"), JVal.str (toString amountRaw)),
                 (("from_private_key"), JVal.str privateKey),
                 (("signature"), JVal.str (encodeB64Str signature)),
                 (("public_key"), JVal.str publicKey),
                 (("timestamp"), JVal.num (toString ts)),
                 (("nonce"), JVal.num (toString nonce)),
                 (("message"), JVal.str (""))]

/-- C1: every transmitted balance-crypto (encrypt or decrypt) payload
carries a detached Ed25519 signature computed over the canonical JSON of
the message object with the fields address, amount (the raw micro-unit
integer), new_balance (the post-op raw balance) and timestamp (epoch
millis), and both the encrypted_data envelope and the signature are
attached to that transmitted payload (whose own amount field is the same
raw integer as a decimal string). -/
theorem balanceCrypto_signed_payload (p : Prims) (nonceBytes : List Nat)
    (address privateKey publicKey : String) (cur : Int) (amt : ℚ) (ts : Int)
    (action : CryptoAction) (pl : List (String × JVal))
    (h : sidebarBalanceCryptoPayload p nonceBytes address privateKey publicKey cur amt ts
      action = Except.ok pl) :
    ∃ kp ev,
      getKeyPair p privateKey = Except.ok kp ∧
      encryptBalanceValue p nonceBytes
        (match action with
         | CryptoAction.encrypt => cur + Int.floor (amt * 1000000)
         | CryptoAction.decrypt => cur - Int.floor (amt * 1000000)) privateKey =
        Except.ok ev ∧
      pl = [(("address"), JVal.str address),
            (("amount"), JVal.str (toString (Int.floor (amt * 1000000)))),
            (("private_key"), JVal.str privateKey),
            (("encrypted_data"), JVal.str ev),
            (("signature"), JVal.str (encodeB64Str (p.edSign (utf8Bytes (jsonStringifyObj
                [(("address"), JVal.str address),
                 (("amount"), JVal.num (toString (Int.floor (amt * 1000000)))),
                 (("new_balance"), JVal.num (toString (match action with
                    | CryptoAction.encrypt => cur + Int.floor (amt * 1000000)
                    | CryptoAction.decrypt => cur - Int.floor (amt * 1000000)))),
                 (("timestamp"), JVal.num (toString ts))])) kp.secretKey))),
            (("public_key"), JVal.str publicKey),
            (("timestamp"), JVal.num (toString ts))] ∧
      pl.lookup ("signature") ≠ none ∧
      pl.lookup ("encrypted_data") = some (JVal.str ev) := by
  unfold sidebarBalanceCryptoPayload at h
  cases action with
  | encrypt =>
      dsimp only at h ⊢
      rcases he : encryptBalanceValue p nonceBytes (cur + Int.floor (amt * 1000000)) privateKey
        with e | ev
      · rw [he] at h
        simp at h
      · rw [he] at h
        rcases hkp : getKeyPair p privateKey with e | kp
        · rw [hkp] at h
          simp at h
        · rw [hkp] at h
          simp only [Except.ok.injEq] at h
          subst h
          exact ⟨kp, ev, rfl, rfl, rfl, by simp, rfl⟩
  | decrypt =>
      dsimp only at h ⊢
      by_cases hlt : cur < Int.floor (amt * 1000000)
      · rw [if_pos hlt] at h
        simp at h
      · rw [if_neg hlt] at h
        dsimp only at h
        rcases he : encryptBalanceValue p nonceBytes (cur - Int.floor (amt * 1000000)) privateKey
          with e | ev
        · rw [he] at h
          simp at h
        · rw [he] at h
          rcases hkp : getKeyPair p privateKey with e | kp
          · rw [hkp] at h
            simp at h
          · rw [hkp] at h
            simp only [Except.ok.injEq] at h
            subst h
            exact ⟨kp, ev, rfl, rfl, rfl, by simp, rfl⟩

/-- C1 witness: the signed balance-crypto payload evaluated at a concrete
encrypt request under the trivial primitives. -/
theorem balanceCrypto_signed_payload_witness :
    ∃ kp ev,
      getKeyPair trivPrims (encodeB64Str (List.replicate 32 0)) = Except.ok kp ∧
      encryptBalanceValue trivPrims [] (0 + Int.floor ((0 : ℚ) * 1000000))
        (encodeB64Str (List.replicate 32 0)) = Except.ok ev ∧
      ([(("address"), JVal.str ("a")), (("amount"), JVal.str ("0")),
        (("private_key"), JVal.str (encodeB64Str (List.replicate 32 0))),
        (("encrypted_data"), JVal.str ("v2|")),
        (("signature"), JVal.str (encodeB64Str (List.replicate 64 0))),
        (("public_key"), JVal.str ("pk")),
        (("timestamp"), JVal.num ("0"))] : List (String × JVal)) =
        [(("address"), JVal.str ("a")),
         (("amount"), JVal.str (toString (Int.floor ((0 : ℚ) * 1000000)))),
         (("private_key"), JVal.str (encodeB64Str (List.replicate 32 0))),
         (("encrypted_data"), JVal.str ev),
         (("signature"), JVal.str (encodeB64Str (trivPrims.edSign (utf8Bytes (jsonStringifyObj
             [(("address"), JVal.str ("a")),
              (("amount"), JVal.num (toString (Int.floor ((0 : ℚ) * 1000000)))),
              (("new_balance"), JVal.num (toString (0 + Int.floor ((0 : ℚ) * 1000000)))),
              (("timestamp"), JVal.num (toString (0 : Int)))])) kp.secretKey))),
         (("public_key"), JVal.str ("pk")),
         (("timestamp"), JVal.num (toString (0 : Int)))] ∧
      ([(("address"), JVal.str ("a")), (("amount"), JVal.str ("0")),
        (("private_key"), JVal.str (encodeB64Str (List.replicate 32 0))),
        (("encrypted_data"), JVal.str ("v2|")),
        (("signature"), JVal.str (encodeB64Str (List.replicate 64 0))),
        (("public_key"), JVal.str ("pk")),
        (("timestamp"), JVal.num ("0"))] : List (String × JVal)).lookup ("signature") ≠ none ∧
      ([(("address"), JVal.str ("a")), (("amount"), JVal.str ("0")),
        (("private_key"), JVal.str (encodeB64Str (List.replicate 32 0))),
        (("encrypted_data"), JVal.str ("v2|")),
        (("signature"), JVal.str (encodeB64Str (List.replicate 64 0))),
        (("public_key"), JVal.str ("pk")),
        (("timestamp"), JVal.num ("0"))] : List (String × JVal)).lookup ("encrypted_data") =
        some (JVal.str ev) :=
  balanceCrypto_signed_payload trivPrims [] ("a") (encodeB64Str (List.replicate 32 0))
    ("pk") 0 0 0 CryptoAction.encrypt
    [(("address"), JVal.str ("a")), (("amount"), JVal.str ("0")),
     (("private_key"), JVal.str (encodeB64Str (List.replicate 32 0))),
     (("encrypted_data"), JVal.str ("v2|")),
     (("signature"), JVal.str (encodeB64Str (List.replicate 64 0))),
     (("public_key"), JVal.str ("pk")),
     (("timestamp"), JVal.num ("0"))]
    (by
      simp only [sidebarBalanceCryptoPayload, encryptBalanceValue,
        sidebarDeriveEncryptionKey, zero_mul, Int.floor_zero]
      decide)

/-- C5: a private transfer submits a payload whose detached Ed25519
signature is computed over the canonical JSON of the message object with
exactly the fields from, to, amount, timestamp (integer seconds) and nonce,
and additionally attaches from_private_key in cleartext to the transmitted
payload while keeping it outside the signed bytes: the signed message
object carries no from_private_key field, and the signature is a function
of that message object alone, so attaching from_private_key does not
change it. -/
theorem privateTransfer_signed_payload (p : Prims)
    (fromAddr toAddr privateKey publicKey : String) (amt : ℚ) (ts nonce : Int)
    (pl : List (String × JVal))
    (h : sidebarPrivateTransferPayload p fromAddr toAddr privateKey publicKey amt ts nonce =
      Except.ok pl) :
    ∃ kp,
      getKeyPair p privateKey = Except.ok kp ∧
      pl = [(("from"), JVal.str fromAddr),
            (("to"), JVal.str toAddr),
            (("amount"), JVal.str (toString (Int.floor (amt * 1000000)))),
            (("from_private_key"), JVal.str privateKey),
            (("signature"), JVal.str (encodeB64Str (p.edSign (utf8Bytes (jsonStringifyObj
                [(("from"), JVal.str fromAddr),
                 (("to"), JVal.str toAddr),
                 (("amount"), JVal.num (toString (Int.floor (amt * 1000000)))),
                 (("timestamp"), JVal.num (toString ts)),
                 (("nonce"), JVal.num (toString nonce))])) kp.secretKey))),
            (("public_key"), JVal.str publicKey),
            (("timestamp"), JVal.num (toString ts)),
            (("nonce"), JVal.num (toString nonce)),
            (("message"), JVal.str (""))] ∧
      pl.lookup ("from_private_key") = some (JVal.str privateKey) ∧
      ([(("from"), JVal.str fromAddr),
        (("to"), JVal.str toAddr),
        (("amount"), JVal.num (toString (Int.floor (amt * 1000000)))),
        (("timestamp"), JVal.num (toString ts)),
        (("nonce"), JVal.num (toString nonce))] :
          List (String × JVal)).lookup ("from_private_key") = none := by
  unfold sidebarPrivateTransferPayload at h
  rcases hkp : getKeyPair p privateKey with e | kp
  · rw [hkp] at h
    simp at h
  · rw [hkp] at h
    simp only [Except.ok.injEq] at h
    subst h
    exact ⟨kp, rfl, rfl, rfl, rfl⟩

/-- C5 witness: the signed private-transfer payload evaluated at a
concrete request under the trivial primitives. -/
theorem privateTransfer_signed_payload_witness :
    ∃ kp,
      getKeyPair trivPrims (encodeB64Str (List.replicate 32 0)) = Except.ok kp ∧
      ([(("from"), JVal.str ("a")), (("to"), JVal.str ("b")),
        (("amount"), JVal.str ("0")),
        (("from_private_key"), JVal.str (encodeB64Str (List.replicate 32 0))),
        (("signature"), JVal.str (encodeB64Str (List.replicate 64 0))),
        (("public_key"), JVal.str ("pk")),
        (("timestamp"), JVal.num ("0")),
        (("nonce"), JVal.num ("0")),
        (("message"), JVal.str (""))] : List (String × JVal)) =
        [(("from"), JVal.str ("a")),
         (("to"), JVal.str ("b")),
         (("amount"), JVal.str (toString (Int.floor ((0 : ℚ) * 1000000)))),
         (("from_private_key"), JVal.str (encodeB64Str (List.replicate 32 0))),
         (("signature"), JVal.str (encodeB64Str (trivPrims.edSign (utf8Bytes (jsonStringifyObj
             [(("from"), JVal.str ("a")),
              (("to"), JVal.str ("b")),
              (("amount"), JVal.num (toString (Int.floor ((0 : ℚ) * 1000000)))),
              (("timestamp"), JVal.num (toString (0 : Int))),
              (("nonce"), JVal.num (toString (0 : Int)))])) kp.secretKey))),
         (("public_key"), JVal.str ("pk")),
         (("timestamp"), JVal.num (toString (0 : Int))),
         (("nonce"), JVal.num (toString (0 : Int))),
         (("message"), JVal.str (""))] ∧
      ([(("from"), JVal.str ("a")), (("to"), JVal.str ("b")),
        (("amount"), JVal.str ("0")),
        (("from_private_key"), JVal.str (encodeB64Str (List.replicate 32 0))),
        (("signature"), JVal.str (encodeB64Str (List.replicate 64 0))),
        (("public_key"), JVal.str ("pk")),
        (("timestamp"), JVal.num ("0")),
        (("nonce"), JVal.num ("0")),
        (("message"), JVal.str (""))] : List (String × JVal)).lookup ("from_private_key") =
        some (JVal.str (encodeB64Str (List.replicate 32 0))) ∧
      ([(("from"), JVal.str ("a")),
        (("to"), JVal.str ("b")),
        (("amount"), JVal.num (toString (Int.floor ((0 : ℚ) * 1000000)))),
        (("timestamp"), JVal.num (toString (0 : Int))),
        (("nonce"), JVal.num (toString (0 : Int)))] :
          List (String × JVal)).lookup ("from_private_key") = none :=
  privateTransfer_signed_payload trivPrims ("a") ("b")
    (encodeB64Str (List.replicate 32 0)) ("pk") 0 0 0
    [(("from"), JVal.str ("a")), (("to"), JVal.str ("b")),
     (("amount"), JVal.str ("0")),
     (("from_private_key"), JVal.str (encodeB64Str (List.replicate 32 0))),
     (("signature"), JVal.str (encodeB64Str (List.replicate 64 0))),
     (("public_key"), JVal.str ("pk")),
     (("timestamp"), JVal.num ("0")),
     (("nonce"), JVal.num ("0")),
     (("message"), JVal.str (""))]
    (by
      simp only [sidebarPrivateTransferPayload, zero_mul, Int.floor_zero]
      decide)
